import Mathlib

/-!
Verification of the frontend message encoder of a PostgreSQL wire-protocol
library (src/src/message/frontend.rs).

The encoder appends bytes to a caller-owned growable buffer (`Vec<u8>` in the
source).  We model the buffer as `List Nat` (each entry one byte) and a call
that mutates the buffer and may fail as a function `Buf → EncResult`, where
`EncResult` carries the buffer state both on success and on failure — exactly
the information a `&mut Vec<u8>` plus a returned `Result` carries in Rust.
Text inputs (`&str`) are modelled by their byte representation, `Oid` (an
opaque `u32`) by `Nat`, and `i16`/`i32` fields by `Int`.
-/

namespace Frontend

/-- Error conditions of the encoder: the source uses the string errors
"string contains embedded null" and "value too large to transmit". -/
inductive Err where
  | embeddedNull
  | valueTooLarge
deriving DecidableEq, Repr

/-- An output buffer: a list of bytes. -/
abbrev Buf := List Nat

/-- Result of an encoding step: the buffer after the call, plus the error if
the call failed (Rust: the state of the `&mut Vec<u8>` plus the `Result`). -/
inductive EncResult where
  | ok (buf : Buf)
  | err (e : Err) (buf : Buf)
deriving DecidableEq, Repr

/-- Sequencing of encoding steps: on error, later steps do not run and the
buffer is left as the failing step left it (Rust `try!` propagation). -/
def EncResult.andThen (r : EncResult) (f : Buf → EncResult) : EncResult :=
  match r with
  | .ok b => f b
  | .err e b => .err e b

/-- The buffer held in a result, successful or not (Rust: the `Vec<u8>`
behind the `&mut` reference after the call returns). -/
def EncResult.buffer : EncResult → Buf
  | .ok b => b
  | .err _ b => b

/-- The `try!(… from_usize …)` pattern: a pure narrowing result gates the
continuation; on overflow the current buffer is returned untouched with the
error. -/
def checked (x : Except Err Nat) (k : Nat → Buf → EncResult) (buf : Buf) : EncResult :=
  match x with
  | .error e => .err e buf
  | .ok n => k n buf

/-- Big-endian bytes: `beBytes k n` is the `k`-byte big-endian encoding of
`n % 2^(8*k)`. -/
def beBytes : Nat → Nat → Buf
  | 0, _ => []
  | k + 1, n => (n / 2 ^ (8 * k)) % 256 :: beBytes k n

/-- The value of a byte list read back as a big-endian integer. -/
def beVal (l : Buf) : Nat := l.foldl (fun a b => a * 256 + b) 0

/-- Bytes written by byteorder's `write_i32::<BigEndian>`: the 4-byte
big-endian two's-complement encoding of an `i32`. -/
def i32be (n : Int) : Buf := beBytes 4 (n % (2 : Int) ^ 32).toNat

/-- Bytes written by `write_i16::<BigEndian>`. -/
def i16be (n : Int) : Buf := beBytes 2 (n % (2 : Int) ^ 16).toNat

/-- Bytes written by `write_u16::<BigEndian>`. -/
def u16be (n : Nat) : Buf := beBytes 2 n

/-- Bytes written by `write_u32::<BigEndian>` (used for `Oid` values). -/
def u32be (n : Nat) : Buf := beBytes 4 n

/-- Source: `impl FromUsize for u16` — `from_usize(x)` succeeds iff `x` is at
most `u16::max_value() = 65535`, else fails with "value too large". -/
def u16.from_usize (x : Nat) : Except Err Nat :=
  if x > 65535 then .error .valueTooLarge else .ok x

/-- Source: `impl FromUsize for i32` — `from_usize(x)` succeeds iff `x` is at
most `i32::max_value() = 2147483647`, else fails with "value too large". -/
def i32.from_usize (x : Nat) : Except Err Nat :=
  if x > 2147483647 then .error .valueTooLarge else .ok x

/-- Source: `WriteCStr for Vec<u8>::write_cstr` — reject a string containing
a zero byte before writing anything, otherwise append its bytes plus one
terminating zero byte. -/
def write_cstr (buf : Buf) (s : Buf) : EncResult :=
  if s.contains 0 then .err .embeddedNull buf
  else .ok (buf ++ s ++ [0])

/-- Source: `write_body` — record `base = buf.len()`, append a 4-byte
placeholder, run the payload writer `f`, then narrow `buf.len() - base` to
`i32` and overwrite the placeholder with its big-endian bytes.  The buffer is
immutable data here, so `base` is written inline as `buf.length`. -/
def write_body (buf : Buf) (f : Buf → EncResult) : EncResult :=
  (f (buf ++ [0, 0, 0, 0])).andThen fun b =>
    checked (i32.from_usize (b.length - buf.length))
      (fun size b => .ok (b.take buf.length ++ i32be size ++ b.drop (buf.length + 4))) b

structure Bind where
  portal : Buf
  statement : Buf
  formats : List Int
  values : List (Option Buf)
  result_formats : List Int

/-- The `for value in self.values` loop of `Bind::write`: `None` is written
as `-1_i32`, `Some v` as the narrowed `i32` length of `v` then its bytes. -/
def write_values (buf : Buf) : List (Option Buf) → EncResult
  | [] => .ok buf
  | none :: rest => write_values (buf ++ i32be (-1)) rest
  | some v :: rest =>
    checked (i32.from_usize v.length)
      (fun n buf => write_values (buf ++ i32be (n : Int) ++ v) rest) buf

/-- The payload closure of `Bind::write`: portal and statement C-strings,
then the three independently counted sequences in order. -/
def Bind.body (m : Bind) (buf : Buf) : EncResult :=
  (write_cstr buf m.portal).andThen fun buf =>
  (write_cstr buf m.statement).andThen fun buf =>
  (checked (u16.from_usize m.formats.length)
    (fun n buf => .ok (buf ++ u16be n ++ (m.formats.map i16be).flatten)) buf).andThen fun buf =>
  (checked (u16.from_usize m.values.length)
    (fun n buf => write_values (buf ++ u16be n) m.values) buf).andThen fun buf =>
  checked (u16.from_usize m.result_formats.length)
    (fun n buf => .ok (buf ++ u16be n ++ (m.result_formats.map i16be).flatten)) buf

/-- `Bind::write`: push tag byte `b'B'` (66), then frame the body. -/
def Bind.write (m : Bind) (buf : Buf) : EncResult :=
  write_body (buf ++ [66]) m.body

structure CancelRequest where
  process_id : Int
  secret_key : Int

/-- The payload closure of `CancelRequest::write`: magic constant 80877102,
then process id and secret key, all as big-endian `i32`. -/
def CancelRequest.body (m : CancelRequest) (buf : Buf) : EncResult :=
  .ok (buf ++ i32be 80877102 ++ i32be m.process_id ++ i32be m.secret_key)

/-- `CancelRequest::write`: no tag byte; frame the body directly. -/
def CancelRequest.write (m : CancelRequest) (buf : Buf) : EncResult :=
  write_body buf m.body

structure Close where
  variant : Nat
  name : Buf

/-- The payload closure of `Close::write`: variant byte then C-string name. -/
def Close.body (m : Close) (buf : Buf) : EncResult :=
  write_cstr (buf ++ [m.variant]) m.name

/-- `Close::write`: tag `b'C'` (67). -/
def Close.write (m : Close) (buf : Buf) : EncResult :=
  write_body (buf ++ [67]) m.body

structure CopyData where
  data : Buf

/-- The payload closure of `CopyData::write`: the raw data bytes. -/
def CopyData.body (m : CopyData) (buf : Buf) : EncResult :=
  .ok (buf ++ m.data)

/-- `CopyData::write`: tag `b'd'` (100). -/
def CopyData.write (m : CopyData) (buf : Buf) : EncResult :=
  write_body (buf ++ [100]) m.body

structure CopyDone where

/-- The payload closure of `CopyDone::write`: writes nothing. -/
def CopyDone.body (_ : CopyDone) (buf : Buf) : EncResult := .ok buf

/-- `CopyDone::write`: tag `b'c'` (99). -/
def CopyDone.write (m : CopyDone) (buf : Buf) : EncResult :=
  write_body (buf ++ [99]) m.body

structure CopyFail where
  message : Buf

/-- The payload closure of `CopyFail::write`: the failure message C-string. -/
def CopyFail.body (m : CopyFail) (buf : Buf) : EncResult :=
  write_cstr buf m.message

/-- `CopyFail::write`: tag `b'f'` (102). -/
def CopyFail.write (m : CopyFail) (buf : Buf) : EncResult :=
  write_body (buf ++ [102]) m.body

structure Describe where
  variant : Nat
  name : Buf

/-- The payload closure of `Describe::write`: variant byte then name. -/
def Describe.body (m : Describe) (buf : Buf) : EncResult :=
  write_cstr (buf ++ [m.variant]) m.name

/-- `Describe::write`: tag `b'D'` (68). -/
def Describe.write (m : Describe) (buf : Buf) : EncResult :=
  write_body (buf ++ [68]) m.body

structure Execute where
  portal : Buf
  max_rows : Int

/-- The payload closure of `Execute::write`: portal C-string then `max_rows`
as big-endian `i32`. -/
def Execute.body (m : Execute) (buf : Buf) : EncResult :=
  (write_cstr buf m.portal).andThen fun buf => .ok (buf ++ i32be m.max_rows)

/-- `Execute::write`: tag `b'E'` (69). -/
def Execute.write (m : Execute) (buf : Buf) : EncResult :=
  write_body (buf ++ [69]) m.body

structure Parse where
  name : Buf
  query : Buf
  param_types : List Nat

/-- The payload closure of `Parse::write`: name and query C-strings, then the
narrowed `u16` count of parameter types, then each `Oid` as big-endian
`u32`. -/
def Parse.body (m : Parse) (buf : Buf) : EncResult :=
  (write_cstr buf m.name).andThen fun buf =>
  (write_cstr buf m.query).andThen fun buf =>
  checked (u16.from_usize m.param_types.length)
    (fun n buf => .ok (buf ++ u16be n ++ (m.param_types.map u32be).flatten)) buf

/-- `Parse::write`: tag `b'P'` (80). -/
def Parse.write (m : Parse) (buf : Buf) : EncResult :=
  write_body (buf ++ [80]) m.body

/-- The closed set of frontend messages (the `Message` trait's implementors). -/
inductive Msg where
  | bind (m : Bind)
  | cancelRequest (m : CancelRequest)
  | close (m : Close)
  | copyData (m : CopyData)
  | copyDone (m : CopyDone)
  | copyFail (m : CopyFail)
  | describe (m : Describe)
  | execute (m : Execute)
  | parse (m : Parse)

/-- Dispatch of `Message::write` over the closed message set. -/
def Msg.write : Msg → Buf → EncResult
  | .bind m, buf => m.write buf
  | .cancelRequest m, buf => m.write buf
  | .close m, buf => m.write buf
  | .copyData m, buf => m.write buf
  | .copyDone m, buf => m.write buf
  | .copyFail m, buf => m.write buf
  | .describe m, buf => m.write buf
  | .execute m, buf => m.write buf
  | .parse m, buf => m.write buf

/-- The tag bytes each message pushes before framing: one byte for every
message except `CancelRequest`, which has none. -/
def Msg.tagBytes : Msg → Buf
  | .bind _ => [66]
  | .cancelRequest _ => []
  | .close _ => [67]
  | .copyData _ => [100]
  | .copyDone _ => [99]
  | .copyFail _ => [102]
  | .describe _ => [68]
  | .execute _ => [69]
  | .parse _ => [80]

/-- The payload closure each message passes to `write_body`. -/
def Msg.body : Msg → Buf → EncResult
  | .bind m => m.body
  | .cancelRequest m => m.body
  | .close m => m.body
  | .copyData m => m.body
  | .copyDone m => m.body
  | .copyFail m => m.body
  | .describe m => m.body
  | .execute m => m.body
  | .parse m => m.body

/-- Whether some textual field of the message contains a zero byte:
these are exactly the fields routed through `write_cstr`. -/
def Msg.hasNullText : Msg → Bool
  | .bind m => m.portal.contains 0 || m.statement.contains 0
  | .cancelRequest _ => false
  | .close m => m.name.contains 0
  | .copyData _ => false
  | .copyDone _ => false
  | .copyFail m => m.message.contains 0
  | .describe m => m.name.contains 0
  | .execute m => m.portal.contains 0
  | .parse m => m.name.contains 0 || m.query.contains 0

/-- Wire bytes of one Bind parameter value: `-1_i32` for SQL NULL, else the
`i32` length then the raw bytes. -/
def valueBytes : Option Buf → Buf
  | none => i32be (-1)
  | some v => i32be (v.length : Int) ++ v

/-- Wire bytes of a whole Bind parameter value list. -/
def valuesBytes (vs : List (Option Buf)) : Buf := (vs.map valueBytes).flatten

/-- What one encode call observably produced, given the buffer length at call
entry: the error (if any) and the bytes at or above the entry length. -/
def EncResult.observed (r : EncResult) (n : Nat) : Option Err × Buf :=
  match r with
  | .ok b => (none, b.drop n)
  | .err e b => (some e, b.drop n)

/-- Prepend `a` to the buffer of a result. -/
def shiftRes (a : Buf) : EncResult → EncResult
  | .ok b => .ok (a ++ b)
  | .err e b => .err e (a ++ b)

/-- An encoding step is translation invariant when running it on `a ++ b`
behaves like running it on `b` with everything shifted by `a`. -/
def ShiftInv (f : Buf → EncResult) : Prop := ∀ a b, f (a ++ b) = shiftRes a (f b)


/-! ### Byte-level arithmetic lemmas -/

theorem beBytes_length (k n : Nat) : (beBytes k n).length = k := by
  induction k generalizing n with
  | zero => rfl
  | succ k ih => simp [beBytes, ih]

theorem beVal_foldl (l : Buf) (a : Nat) :
    l.foldl (fun x b => x * 256 + b) a = a * 256 ^ l.length + beVal l := by
  induction l generalizing a with
  | nil => simp [beVal]
  | cons c l ih =>
    have hc : beVal (c :: l) = c * 256 ^ l.length + beVal l := by
      simp only [beVal, List.foldl_cons]
      simpa using ih c
    simp only [List.foldl_cons, List.length_cons, hc]
    rw [ih (a * 256 + c)]
    ring

theorem beVal_beBytes (k n : Nat) : beVal (beBytes k n) = n % 2 ^ (8 * k) := by
  induction k generalizing n with
  | zero => simp [beBytes, beVal, Nat.mod_one]
  | succ k ih =>
    have h1 : beVal (beBytes (k + 1) n)
        = (n / 2 ^ (8 * k) % 256) * 256 ^ k + beVal (beBytes k n) := by
      simp only [beBytes, beVal, List.foldl_cons]
      simpa [beBytes_length, beVal] using beVal_foldl (beBytes k n) (n / 2 ^ (8 * k) % 256)
    have h2 : (256 : Nat) ^ k = 2 ^ (8 * k) := by
      rw [Nat.pow_mul]
    have h3 : (2 : Nat) ^ (8 * (k + 1)) = 2 ^ (8 * k) * 256 := by
      rw [Nat.mul_add, Nat.pow_add]
    rw [h1, ih, h3, Nat.mod_mul, h2]
    ring

theorem i32be_length (n : Int) : (i32be n).length = 4 := beBytes_length 4 _

theorem i16be_length (n : Int) : (i16be n).length = 2 := beBytes_length 2 _

theorem u16be_length (n : Nat) : (u16be n).length = 2 := beBytes_length 2 _

theorem i32be_ofNat (n : Nat) (h : n < 2 ^ 32) : i32be (n : Int) = beBytes 4 n := by
  have h1 : (n : Int) % (2 : Int) ^ 32 = (n : Int) := by
    apply Int.emod_eq_of_lt (Int.natCast_nonneg n)
    exact_mod_cast h
  unfold i32be
  rw [h1]
  simp

/-! ### Translation invariance: every encoding step only appends, so running
it after a longer prefix shifts its whole effect by that prefix. -/

theorem shiftRes_buffer (a : Buf) (r : EncResult) : (shiftRes a r).buffer = a ++ r.buffer := by
  cases r <;> rfl

theorem andThen_shiftRes {g : Buf → EncResult} (hg : ShiftInv g) (a : Buf) (r : EncResult) :
    (shiftRes a r).andThen g = shiftRes a (r.andThen g) := by
  cases r with
  | ok b => simpa [shiftRes, EncResult.andThen] using hg a b
  | err e b => simp [shiftRes, EncResult.andThen]

theorem shiftInv_andThen {f g : Buf → EncResult} (hf : ShiftInv f) (hg : ShiftInv g) :
    ShiftInv (fun b => (f b).andThen g) := by
  intro a b
  simp only
  rw [hf a b, andThen_shiftRes hg]

theorem shiftInv_write_cstr (s : Buf) : ShiftInv (fun b => write_cstr b s) := by
  intro a b
  by_cases h : 0 ∈ s <;> simp [write_cstr, h, shiftRes, List.append_assoc]

theorem shiftInv_checked {x : Except Err Nat} {k : Nat → Buf → EncResult}
    (hk : ∀ n, ShiftInv (k n)) : ShiftInv (checked x k) := by
  intro a b
  cases x with
  | error e => simp [checked, shiftRes]
  | ok n => simpa [checked] using hk n a b

theorem shiftInv_ok_append2 (p q : Buf) : ShiftInv (fun b => .ok (b ++ p ++ q)) := by
  intro a b; simp [shiftRes, List.append_assoc]

theorem shiftInv_ok_append (p : Buf) : ShiftInv (fun b => .ok (b ++ p)) := by
  intro a b; simp [shiftRes, List.append_assoc]

theorem shiftInv_precomp {f : Buf → EncResult} (hf : ShiftInv f) (p : Buf) :
    ShiftInv (fun b => f (b ++ p)) := by
  intro a b
  simp only
  rw [List.append_assoc]
  exact hf a (b ++ p)

theorem shiftInv_precomp2 {f : Buf → EncResult} (hf : ShiftInv f) (p q : Buf) :
    ShiftInv (fun b => f (b ++ p ++ q)) := by
  intro a b
  simp only
  have h : a ++ b ++ p ++ q = a ++ (b ++ p ++ q) := by simp [List.append_assoc]
  rw [h]
  exact hf a (b ++ p ++ q)

theorem shiftInv_write_values (vs : List (Option Buf)) :
    ShiftInv (fun b => write_values b vs) := by
  induction vs with
  | nil => intro a b; simp [write_values, shiftRes]
  | cons v rest ih =>
    cases v with
    | none =>
      intro a b
      simp only [write_values]
      rw [List.append_assoc]
      exact ih a (b ++ i32be (-1))
    | some v =>
      intro a b
      simp only [write_values]
      exact shiftInv_checked (fun n => shiftInv_precomp2 ih (i32be (n : Int)) v) a b

theorem shiftInv_write_body {f : Buf → EncResult} (hf : ShiftInv f) :
    ShiftInv (fun b => write_body b f) := by
  intro a b
  simp only [write_body]
  have h1 : (a ++ b) ++ [0, 0, 0, 0] = a ++ (b ++ [0, 0, 0, 0]) := by
    simp [List.append_assoc]
  rw [h1, hf a (b ++ [0, 0, 0, 0])]
  cases hr : f (b ++ [0, 0, 0, 0]) with
  | err e c => simp [shiftRes, EncResult.andThen]
  | ok c =>
    simp only [shiftRes, EncResult.andThen]
    have hlen : (a ++ c).length - (a ++ b).length = c.length - b.length := by
      simp only [List.length_append]; omega
    rw [hlen]
    cases hx : i32.from_usize (c.length - b.length) with
    | error e => simp [checked, shiftRes]
    | ok size =>
      simp only [checked]
      have ht : (a ++ c).take (a ++ b).length = a ++ c.take b.length := by
        rw [List.length_append]; exact List.take_append b.length
      have hd : (a ++ c).drop ((a ++ b).length + 4) = c.drop (b.length + 4) := by
        rw [List.length_append, Nat.add_assoc]; exact List.drop_append (b.length + 4)
      rw [ht, hd]
      simp [shiftRes, List.append_assoc]

/-! ### Translation invariance of every message body -/

theorem bind_body_shiftInv (m : Bind) : ShiftInv m.body := by
  unfold Bind.body
  apply shiftInv_andThen (shiftInv_write_cstr m.portal)
  apply shiftInv_andThen (shiftInv_write_cstr m.statement)
  apply shiftInv_andThen (shiftInv_checked fun n => shiftInv_ok_append2 _ _)
  apply shiftInv_andThen
    (shiftInv_checked fun n => shiftInv_precomp (shiftInv_write_values m.values) _)
  exact shiftInv_checked fun n => shiftInv_ok_append2 _ _

theorem cancelRequest_body_shiftInv (m : CancelRequest) : ShiftInv m.body := by
  intro a b
  simp [CancelRequest.body, shiftRes, List.append_assoc]

theorem close_body_shiftInv (m : Close) : ShiftInv m.body := by
  unfold Close.body
  exact shiftInv_precomp (shiftInv_write_cstr m.name) _

theorem copyData_body_shiftInv (m : CopyData) : ShiftInv m.body := by
  unfold CopyData.body
  exact shiftInv_ok_append m.data

theorem copyDone_body_shiftInv (m : CopyDone) : ShiftInv m.body := by
  intro a b
  simp [CopyDone.body, shiftRes]

theorem copyFail_body_shiftInv (m : CopyFail) : ShiftInv m.body := by
  unfold CopyFail.body
  exact shiftInv_write_cstr m.message

theorem describe_body_shiftInv (m : Describe) : ShiftInv m.body := by
  unfold Describe.body
  exact shiftInv_precomp (shiftInv_write_cstr m.name) _

theorem execute_body_shiftInv (m : Execute) : ShiftInv m.body := by
  unfold Execute.body
  exact shiftInv_andThen (shiftInv_write_cstr m.portal) (shiftInv_ok_append _)

theorem parse_body_shiftInv (m : Parse) : ShiftInv m.body := by
  unfold Parse.body
  apply shiftInv_andThen (shiftInv_write_cstr m.name)
  apply shiftInv_andThen (shiftInv_write_cstr m.query)
  exact shiftInv_checked fun n => shiftInv_ok_append2 _ _

theorem msg_body_shiftInv (m : Msg) : ShiftInv m.body := by
  cases m with
  | bind m => exact bind_body_shiftInv m
  | cancelRequest m => exact cancelRequest_body_shiftInv m
  | close m => exact close_body_shiftInv m
  | copyData m => exact copyData_body_shiftInv m
  | copyDone m => exact copyDone_body_shiftInv m
  | copyFail m => exact copyFail_body_shiftInv m
  | describe m => exact describe_body_shiftInv m
  | execute m => exact execute_body_shiftInv m
  | parse m => exact parse_body_shiftInv m

/-- Every message's `write` is "push the tag bytes, then frame the body". -/
theorem Msg.write_eq (m : Msg) (buf : Buf) :
    m.write buf = write_body (buf ++ m.tagBytes) m.body := by
  cases m with
  | cancelRequest m => simp [Msg.write, Msg.tagBytes, Msg.body, CancelRequest.write]
  | bind m => rfl
  | close m => rfl
  | copyData m => rfl
  | copyDone m => rfl
  | copyFail m => rfl
  | describe m => rfl
  | execute m => rfl
  | parse m => rfl

/-- Encoding into any buffer is encoding into the empty buffer, shifted. -/
theorem Msg.write_shift (m : Msg) (buf : Buf) :
    m.write buf = shiftRes buf (m.write []) := by
  have h := shiftInv_write_body (msg_body_shiftInv m)
  rw [Msg.write_eq, Msg.write_eq]
  have h2 := h buf m.tagBytes
  simpa using h2

/-! ### Characterisation of `write_body` -/

theorem write_body_ok_of {f : Buf → EncResult} (hf : ShiftInv f) (t p : Buf)
    (hp : f [] = .ok p) (hle : 4 + p.length ≤ 2147483647) :
    write_body t f = .ok (t ++ beBytes 4 (4 + p.length) ++ p) := by
  have h1 : f (t ++ [0, 0, 0, 0]) = .ok ((t ++ [0, 0, 0, 0]) ++ p) := by
    have := hf (t ++ [0, 0, 0, 0]) []
    simp only [List.append_nil] at this
    rw [this, hp]
    rfl
  unfold write_body
  rw [h1]
  simp only [EncResult.andThen]
  have hlen : ((t ++ [0, 0, 0, 0]) ++ p).length - t.length = 4 + p.length := by
    simp only [List.length_append]
    simp
    omega
  rw [hlen]
  have hx : i32.from_usize (4 + p.length) = .ok (4 + p.length) := by
    unfold i32.from_usize
    rw [if_neg (by omega)]
  rw [hx]
  simp only [checked]
  have ht : ((t ++ [0, 0, 0, 0]) ++ p).take t.length = t := by
    rw [List.append_assoc]
    exact List.take_left t _
  have hd : ((t ++ [0, 0, 0, 0]) ++ p).drop (t.length + 4) = p := by
    have : (t ++ [0, 0, 0, 0]).length = t.length + 4 := by simp
    rw [← this]
    exact List.drop_left _ p
  rw [ht, hd, i32be_ofNat (4 + p.length) (by omega)]

theorem write_body_err_of {f : Buf → EncResult} (hf : ShiftInv f) (t b : Buf) (e : Err)
    (hp : f [] = .err e b) :
    write_body t f = .err e (t ++ [0, 0, 0, 0] ++ b) := by
  have h1 : f (t ++ [0, 0, 0, 0]) = .err e ((t ++ [0, 0, 0, 0]) ++ b) := by
    have := hf (t ++ [0, 0, 0, 0]) []
    simp only [List.append_nil] at this
    rw [this, hp]
    rfl
  unfold write_body
  rw [h1]
  rfl

theorem write_body_size_err {f : Buf → EncResult} (hf : ShiftInv f) (t p : Buf)
    (hp : f [] = .ok p) (hgt : 2147483647 < 4 + p.length) :
    write_body t f = .err .valueTooLarge (t ++ [0, 0, 0, 0] ++ p) := by
  have h1 : f (t ++ [0, 0, 0, 0]) = .ok ((t ++ [0, 0, 0, 0]) ++ p) := by
    have := hf (t ++ [0, 0, 0, 0]) []
    simp only [List.append_nil] at this
    rw [this, hp]
    rfl
  unfold write_body
  rw [h1]
  simp only [EncResult.andThen]
  have hlen : ((t ++ [0, 0, 0, 0]) ++ p).length - t.length = 4 + p.length := by
    simp only [List.length_append]
    simp
    omega
  rw [hlen]
  have hx : i32.from_usize (4 + p.length) = .error .valueTooLarge := by
    unfold i32.from_usize
    rw [if_pos (by omega)]
  rw [hx]
  simp [checked, List.append_assoc]

theorem write_body_ok_inv {f : Buf → EncResult} (hf : ShiftInv f) (t out : Buf)
    (h : write_body t f = .ok out) :
    ∃ p, f [] = .ok p ∧ 4 + p.length ≤ 2147483647
      ∧ out = t ++ beBytes 4 (4 + p.length) ++ p := by
  cases hr : f [] with
  | err e b =>
    rw [write_body_err_of hf t b e hr] at h
    exact absurd h (by simp)
  | ok p =>
    by_cases hle : 4 + p.length ≤ 2147483647
    · refine ⟨p, rfl, hle, ?_⟩
      rw [write_body_ok_of hf t p hr hle] at h
      exact (EncResult.ok.injEq _ _ ▸ h).symm
    · rw [write_body_size_err hf t p hr (by omega)] at h
      exact absurd h (by simp)

/-! ### Narrowing boundary lemmas -/

theorem u16_from_usize_ok {x : Nat} (h : x ≤ 65535) : u16.from_usize x = .ok x := by
  unfold u16.from_usize
  rw [if_neg (by omega)]

theorem u16_from_usize_err {x : Nat} (h : 65535 < x) :
    u16.from_usize x = .error .valueTooLarge := by
  unfold u16.from_usize
  rw [if_pos (by omega)]

theorem i32_from_usize_ok {x : Nat} (h : x ≤ 2147483647) : i32.from_usize x = .ok x := by
  unfold i32.from_usize
  rw [if_neg (by omega)]

theorem i32_from_usize_err {x : Nat} (h : 2147483647 < x) :
    i32.from_usize x = .error .valueTooLarge := by
  unfold i32.from_usize
  rw [if_pos (by omega)]

/-- When every present value fits the `i32` narrowing, the Bind value loop
succeeds and appends exactly the per-value wire bytes. -/
theorem write_values_ok (b : Buf) (vs : List (Option Buf))
    (h : ∀ v ∈ vs, ∀ x, v = some x → x.length ≤ 2147483647) :
    write_values b vs = .ok (b ++ valuesBytes vs) := by
  induction vs generalizing b with
  | nil => simp [write_values, valuesBytes]
  | cons v rest ih =>
    have hrest : ∀ v ∈ rest, ∀ x, v = some x → x.length ≤ 2147483647 :=
      fun v hv => h v (List.mem_cons_of_mem _ hv)
    cases v with
    | none =>
      simp only [write_values]
      rw [ih _ hrest]
      simp [valuesBytes, valueBytes, List.append_assoc]
    | some x =>
      have hx : x.length ≤ 2147483647 := h (some x) (List.mem_cons_self _ _) x rfl
      simp only [write_values]
      rw [i32_from_usize_ok hx]
      simp only [checked]
      rw [ih _ hrest]
      simp [valuesBytes, valueBytes, List.append_assoc]

/-- Success equation for the C-string writer. -/
theorem write_cstr_ok {s : Buf} (h : s.contains 0 = false) (buf : Buf) :
    write_cstr buf s = .ok (buf ++ s ++ [0]) := by
  unfold write_cstr
  rw [h]
  simp

/-- Failure equation for the C-string writer. -/
theorem write_cstr_null {s : Buf} (h : s.contains 0 = true) (buf : Buf) :
    write_cstr buf s = .err .embeddedNull buf := by
  unfold write_cstr
  rw [h]
  simp

/-! ### Claim theorems -/

/-- C1: for every message kind and every input on which encode succeeds, the
4-byte length field interpreted as big-endian equals the total number of
bytes written by that call minus the number of tag bytes written (1 for every
message except CancelRequest, 0 there); equivalently it equals 4 plus the
payload size and never includes the tag byte. -/
theorem encode_length_field_correct (m : Msg) (buf out : Buf)
    (h : m.write buf = .ok out) :
    ∃ payload : Buf,
      out = buf ++ m.tagBytes ++ beBytes 4 (4 + payload.length) ++ payload ∧
      beVal (beBytes 4 (4 + payload.length)) = 4 + payload.length ∧
      out.length - buf.length - m.tagBytes.length = 4 + payload.length := by
  rw [Msg.write_eq] at h
  obtain ⟨p, _hp, hle, hout⟩ := write_body_ok_inv (msg_body_shiftInv m) _ _ h
  refine ⟨p, ?_, ?_, ?_⟩
  · rw [hout]
  · rw [beVal_beBytes]
    have h32 : (2 : Nat) ^ 32 = 4294967296 := by norm_num
    exact Nat.mod_eq_of_lt (by omega)
  · rw [hout]
    simp only [List.length_append, beBytes_length]
    omega

/-- Witness for C1 at the CopyDone message and the empty buffer. -/
theorem encode_length_field_correct_witness :
    ∃ payload : Buf,
      ([99, 0, 0, 0, 4] : Buf)
          = [] ++ Msg.tagBytes (.copyDone ⟨⟩) ++ beBytes 4 (4 + payload.length) ++ payload ∧
      beVal (beBytes 4 (4 + payload.length)) = 4 + payload.length ∧
      ([99, 0, 0, 0, 4] : Buf).length - ([] : Buf).length
          - (Msg.tagBytes (.copyDone ⟨⟩)).length = 4 + payload.length :=
  encode_length_field_correct (.copyDone ⟨⟩) [] [99, 0, 0, 0, 4] (by decide)

/-- C4: for every text input containing no zero byte, the C-string writer
succeeds and appends exactly the input's bytes followed by one zero byte and
nothing else. -/
theorem write_cstr_appends_nul_terminated (buf s : Buf) (h : s.contains 0 = false) :
    write_cstr buf s = .ok (buf ++ s ++ [0]) := by
  unfold write_cstr
  rw [h]
  simp

/-- Witness for C4 at a concrete buffer and text. -/
theorem write_cstr_appends_nul_terminated_witness :
    write_cstr [9] [1, 2] = .ok [9, 1, 2, 0] :=
  write_cstr_appends_nul_terminated [9] [1, 2] (by decide)

/-- C6: encoding Parse with empty name, query "SELECT 1" (bytes
83,69,76,69,67,84,32,49) and zero parameter types appends exactly: tag 'P'
(80); 4-byte big-endian length 16; 0x00 for the empty name; the query bytes
followed by 0x00; and the two-byte count 0x0000. -/
theorem parse_select1_bytes (buf : Buf) :
    Parse.write ⟨[], [83, 69, 76, 69, 67, 84, 32, 49], []⟩ buf
      = .ok (buf ++ [80, 0, 0, 0, 16, 0, 83, 69, 76, 69, 67, 84, 32, 49, 0, 0, 0]) := by
  have h := Msg.write_shift (.parse ⟨[], [83, 69, 76, 69, 67, 84, 32, 49], []⟩) buf
  have h0 : Msg.write (.parse ⟨[], [83, 69, 76, 69, 67, 84, 32, 49], []⟩) []
      = .ok [80, 0, 0, 0, 16, 0, 83, 69, 76, 69, 67, 84, 32, 49, 0, 0, 0] := by decide
  rw [h0] at h
  exact h

/-- C7: for every process id and secret key, encoding CancelRequest appends
exactly 16 bytes with no leading tag byte: the 4-byte big-endian length 16,
then big-endian 80877102, the process id, and the secret key, in that order;
at process id 1234 and secret key 5678 this gives the concrete bytes below. -/
theorem cancelRequest_bytes (buf : Buf) (pid sk : Int) :
    CancelRequest.write ⟨pid, sk⟩ buf
        = .ok (buf ++ beBytes 4 16 ++ i32be 80877102 ++ i32be pid ++ i32be sk) ∧
    beBytes 4 16 = [0, 0, 0, 16] ∧
    (beBytes 4 16 ++ i32be 80877102 ++ i32be pid ++ i32be sk).length = 16 ∧
    CancelRequest.write ⟨1234, 5678⟩ []
        = .ok [0, 0, 0, 16, 4, 210, 22, 46, 0, 0, 4, 210, 0, 0, 22, 46] := by
  refine ⟨?_, by decide, ?_, by decide⟩
  · have hp : CancelRequest.body ⟨pid, sk⟩ []
        = .ok (i32be 80877102 ++ i32be pid ++ i32be sk) := by
      simp [CancelRequest.body]
    have hlen : (i32be 80877102 ++ i32be pid ++ i32be sk).length = 12 := by
      simp [i32be_length]
    have h := write_body_ok_of (cancelRequest_body_shiftInv ⟨pid, sk⟩) buf _ hp
      (by rw [hlen]; norm_num)
    rw [hlen] at h
    show CancelRequest.write ⟨pid, sk⟩ buf
        = .ok (buf ++ beBytes 4 16 ++ i32be 80877102 ++ i32be pid ++ i32be sk)
    unfold CancelRequest.write
    rw [h]
    simp [List.append_assoc]
  · simp [beBytes_length, i32be_length]

/-- C9: encoding is deterministic — for every message value, what an encode
call appends past the entry length (and whether and how it fails) is the same
for any two initial buffers, in particular for two fresh or equal-content
buffers. -/
theorem encode_deterministic (m : Msg) (b1 b2 : Buf) :
    (m.write b1).observed b1.length = (m.write b2).observed b2.length := by
  have key : ∀ b : Buf, (m.write b).observed b.length = (m.write []).observed 0 := by
    intro b
    rw [Msg.write_shift]
    cases m.write [] with
    | ok c => simp [EncResult.observed, shiftRes, List.drop_left]
    | err e c => simp [EncResult.observed, shiftRes, List.drop_left]
  rw [key b1, key b2]

/-- C10: for every encoder and every input, including failing ones, the bytes
below the buffer's entry length are unchanged when the call returns — the
output buffer always extends the input buffer. -/
theorem encode_keeps_prior_bytes (m : Msg) (buf : Buf) :
    (m.write buf).buffer.take buf.length = buf ∧
    ∃ tail, (m.write buf).buffer = buf ++ tail := by
  rw [Msg.write_shift, shiftRes_buffer]
  exact ⟨List.take_left buf _, _, rfl⟩

/-- If some text field of a message contains a zero byte, its payload body
fails with the embedded-null error (shown on the empty initial buffer). -/
theorem body_embeddedNull_of_hasNullText (m : Msg) (h : m.hasNullText = true) :
    ∃ b0, m.body [] = .err .embeddedNull b0 := by
  cases m with
  | bind m =>
    simp only [Msg.hasNullText, Bool.or_eq_true] at h
    by_cases hp : 0 ∈ m.portal
    · exact ⟨[], by simp [Msg.body, Bind.body, write_cstr, hp, EncResult.andThen]⟩
    · have hs : 0 ∈ m.statement := by
        rcases h with h | h
        · exact absurd (by simpa using h) hp
        · simpa using h
      exact ⟨m.portal ++ [0],
        by simp [Msg.body, Bind.body, write_cstr, hp, hs, EncResult.andThen]⟩
  | cancelRequest m => simp [Msg.hasNullText] at h
  | close m =>
    have hn : 0 ∈ m.name := by simpa [Msg.hasNullText] using h
    exact ⟨[m.variant], by simp [Msg.body, Close.body, write_cstr, hn]⟩
  | copyData m => simp [Msg.hasNullText] at h
  | copyDone m => simp [Msg.hasNullText] at h
  | copyFail m =>
    have hn : 0 ∈ m.message := by simpa [Msg.hasNullText] using h
    exact ⟨[], by simp [Msg.body, CopyFail.body, write_cstr, hn]⟩
  | describe m =>
    have hn : 0 ∈ m.name := by simpa [Msg.hasNullText] using h
    exact ⟨[m.variant], by simp [Msg.body, Describe.body, write_cstr, hn]⟩
  | execute m =>
    have hn : 0 ∈ m.portal := by simpa [Msg.hasNullText] using h
    exact ⟨[], by simp [Msg.body, Execute.body, write_cstr, hn, EncResult.andThen]⟩
  | parse m =>
    simp only [Msg.hasNullText, Bool.or_eq_true] at h
    by_cases hp : 0 ∈ m.name
    · exact ⟨[], by simp [Msg.body, Parse.body, write_cstr, hp, EncResult.andThen]⟩
    · have hs : 0 ∈ m.query := by
        rcases h with h | h
        · exact absurd (by simpa using h) hp
        · simpa using h
      exact ⟨m.name ++ [0],
        by simp [Msg.body, Parse.body, write_cstr, hp, hs, EncResult.andThen]⟩

/-- C3: for every text input whose byte representation contains a zero byte
anywhere, the C-string writer fails with the embedded-null condition and
leaves the buffer unmodified (it checks before writing), and every encoder
whose message carries such a text fails with the embedded-null condition. -/
theorem embedded_null_rejected :
    (∀ buf s : Buf, s.contains 0 = true → write_cstr buf s = .err .embeddedNull buf) ∧
    (∀ (m : Msg) (buf : Buf), m.hasNullText = true →
      ∃ b, m.write buf = .err .embeddedNull b) := by
  constructor
  · intro buf s h
    unfold write_cstr
    rw [h]
    simp
  · intro m buf h
    obtain ⟨b0, hb⟩ := body_embeddedNull_of_hasNullText m h
    rw [Msg.write_eq]
    exact ⟨_, write_body_err_of (msg_body_shiftInv m) _ _ _ hb⟩

/-- Witness for C3 at a concrete text containing a zero byte and a concrete
CopyFail message. -/
theorem embedded_null_rejected_witness :
    write_cstr [1] [5, 0] = .err .embeddedNull [1] ∧
    ∃ b, Msg.write (.copyFail ⟨[0]⟩) [] = .err .embeddedNull b :=
  ⟨embedded_null_rejected.1 [1] [5, 0] (by decide),
   embedded_null_rejected.2 (.copyFail ⟨[0]⟩) [] (by decide)⟩

/-- C2 counterexample: a CopyData payload of exactly 2147483647 bytes — the
32-bit signed maximum, so within the bound the claim says must succeed —
fails with the value-too-large error, because the frame length checked in
write_body is 4 + 2147483647 and overflows the i32 narrowing. -/
theorem copyData_i32max_payload_fails :
    CopyData.write ⟨List.replicate 2147483647 0⟩ []
      = .err .valueTooLarge ([100, 0, 0, 0, 0] ++ List.replicate 2147483647 0) := by
  have hp : CopyData.body ⟨List.replicate 2147483647 0⟩ []
      = .ok (List.replicate 2147483647 0) := by
    unfold CopyData.body
    rw [List.nil_append]
  have h := write_body_size_err (copyData_body_shiftInv ⟨List.replicate 2147483647 0⟩)
    [100] _ hp (by rw [List.length_replicate]; omega)
  unfold CopyData.write
  rw [List.nil_append, h]
  rfl

/-- C2 amended: the i32 narrowing itself succeeds for every length up to
2147483647 and fails with value-too-large one above it; encoding CopyData
succeeds exactly when the whole frame length 4 + payload length fits the
narrowing, and fails with value-too-large otherwise. -/
theorem payload_length_boundary :
    (∀ x : Nat, x ≤ 2147483647 → i32.from_usize x = .ok x) ∧
    (i32.from_usize 2147483648 = .error .valueTooLarge) ∧
    (∀ (buf d : Buf), 4 + d.length ≤ 2147483647 →
      CopyData.write ⟨d⟩ buf = .ok (buf ++ [100] ++ beBytes 4 (4 + d.length) ++ d)) ∧
    (∀ (buf d : Buf), 2147483647 < 4 + d.length →
      CopyData.write ⟨d⟩ buf = .err .valueTooLarge (buf ++ [100, 0, 0, 0, 0] ++ d)) := by
  refine ⟨fun x h => i32_from_usize_ok h, i32_from_usize_err (by omega), ?_, ?_⟩
  · intro buf d h
    have hp : CopyData.body ⟨d⟩ [] = .ok d := by simp [CopyData.body]
    have hb := write_body_ok_of (copyData_body_shiftInv ⟨d⟩) (buf ++ [100]) _ hp h
    unfold CopyData.write
    rw [hb]
  · intro buf d h
    have hp : CopyData.body ⟨d⟩ [] = .ok d := by simp [CopyData.body]
    have hb := write_body_size_err (copyData_body_shiftInv ⟨d⟩) (buf ++ [100]) _ hp h
    unfold CopyData.write
    rw [hb]
    simp [List.append_assoc]

/-- Witness for the amended C2 at concrete inputs on both sides of the
boundary. -/
theorem payload_length_boundary_witness :
    i32.from_usize 5 = .ok 5 ∧
    CopyData.write ⟨[1, 2, 3]⟩ [] = .ok ([] ++ [100] ++ beBytes 4 7 ++ [1, 2, 3]) ∧
    CopyData.write ⟨List.replicate 2147483644 0⟩ []
      = .err .valueTooLarge ([] ++ [100, 0, 0, 0, 0] ++ List.replicate 2147483644 0) :=
  ⟨payload_length_boundary.1 5 (by decide),
   payload_length_boundary.2.2.1 [] [1, 2, 3] (by decide),
   payload_length_boundary.2.2.2 [] (List.replicate 2147483644 0)
     (by rw [List.length_replicate]; omega)⟩

/-- C5: for every sequence field transmitted with a 16-bit count prefix
(Bind's formats, values and result formats; Parse's parameter types), element
counts 0 through 65535 pass the u16 narrowing and a count of 65536 (or any
larger) fails with value-too-large; the narrowing happens before the count or
any element of that sequence is appended — at the failure point the buffer
ends exactly where the count would have gone. -/
theorem u16_count_boundary :
    (∀ x : Nat, x ≤ 65535 → u16.from_usize x = .ok x) ∧
    (u16.from_usize 65536 = .error .valueTooLarge) ∧
    (∀ (buf : Buf) (m : Bind), m.portal.contains 0 = false →
      m.statement.contains 0 = false → 65535 < m.formats.length →
      m.write buf = .err .valueTooLarge
        (buf ++ [66] ++ [0, 0, 0, 0] ++ m.portal ++ [0] ++ m.statement ++ [0])) ∧
    (∀ (buf : Buf) (m : Bind), m.portal.contains 0 = false →
      m.statement.contains 0 = false → m.formats.length ≤ 65535 →
      65535 < m.values.length →
      m.write buf = .err .valueTooLarge
        (buf ++ [66] ++ [0, 0, 0, 0] ++ m.portal ++ [0] ++ m.statement ++ [0]
          ++ u16be m.formats.length ++ (m.formats.map i16be).flatten)) ∧
    (∀ (buf : Buf) (m : Bind), m.portal.contains 0 = false →
      m.statement.contains 0 = false → m.formats.length ≤ 65535 →
      m.values.length ≤ 65535 →
      (∀ v ∈ m.values, ∀ x, v = some x → x.length ≤ 2147483647) →
      65535 < m.result_formats.length →
      m.write buf = .err .valueTooLarge
        (buf ++ [66] ++ [0, 0, 0, 0] ++ m.portal ++ [0] ++ m.statement ++ [0]
          ++ u16be m.formats.length ++ (m.formats.map i16be).flatten
          ++ u16be m.values.length ++ valuesBytes m.values)) ∧
    (∀ (buf : Buf) (m : Parse), m.name.contains 0 = false →
      m.query.contains 0 = false → 65535 < m.param_types.length →
      m.write buf = .err .valueTooLarge
        (buf ++ [80] ++ [0, 0, 0, 0] ++ m.name ++ [0] ++ m.query ++ [0])) := by
  refine ⟨fun x h => u16_from_usize_ok h, u16_from_usize_err (by omega), ?_, ?_, ?_, ?_⟩
  · intro buf m hp hs hlt
    have hb : m.body []
        = .err .valueTooLarge ([] ++ m.portal ++ [0] ++ m.statement ++ [0]) := by
      unfold Bind.body
      rw [write_cstr_ok hp]
      simp only [EncResult.andThen]
      rw [write_cstr_ok hs]
      simp only [EncResult.andThen]
      rw [u16_from_usize_err hlt]
      simp only [checked, EncResult.andThen]
    have h := write_body_err_of (bind_body_shiftInv m) (buf ++ [66]) _ _ hb
    show write_body (buf ++ [66]) m.body = _
    rw [h]
    simp [List.append_assoc]
  · intro buf m hp hs hf hlt
    have hb : m.body []
        = .err .valueTooLarge ([] ++ m.portal ++ [0] ++ m.statement ++ [0]
            ++ u16be m.formats.length ++ (m.formats.map i16be).flatten) := by
      unfold Bind.body
      rw [write_cstr_ok hp]
      simp only [EncResult.andThen]
      rw [write_cstr_ok hs]
      simp only [EncResult.andThen]
      rw [u16_from_usize_ok hf]
      simp only [checked, EncResult.andThen]
      rw [u16_from_usize_err hlt]
    have h := write_body_err_of (bind_body_shiftInv m) (buf ++ [66]) _ _ hb
    show write_body (buf ++ [66]) m.body = _
    rw [h]
    simp [List.append_assoc]
  · intro buf m hp hs hf hvle hv hlt
    have hb : m.body []
        = .err .valueTooLarge ([] ++ m.portal ++ [0] ++ m.statement ++ [0]
            ++ u16be m.formats.length ++ (m.formats.map i16be).flatten
            ++ u16be m.values.length ++ valuesBytes m.values) := by
      unfold Bind.body
      rw [write_cstr_ok hp]
      simp only [EncResult.andThen]
      rw [write_cstr_ok hs]
      simp only [EncResult.andThen]
      rw [u16_from_usize_ok hf]
      simp only [checked, EncResult.andThen]
      rw [u16_from_usize_ok hvle]
      simp only [checked, EncResult.andThen]
      rw [write_values_ok _ _ hv]
      simp only [EncResult.andThen]
      rw [u16_from_usize_err hlt]
    have h := write_body_err_of (bind_body_shiftInv m) (buf ++ [66]) _ _ hb
    show write_body (buf ++ [66]) m.body = _
    rw [h]
    simp [List.append_assoc]
  · intro buf m hn hq hlt
    have hb : m.body []
        = .err .valueTooLarge ([] ++ m.name ++ [0] ++ m.query ++ [0]) := by
      unfold Parse.body
      rw [write_cstr_ok hn]
      simp only [EncResult.andThen]
      rw [write_cstr_ok hq]
      simp only [EncResult.andThen]
      rw [u16_from_usize_err hlt]
      simp only [checked, EncResult.andThen]
    have h := write_body_err_of (parse_body_shiftInv m) (buf ++ [80]) _ _ hb
    show write_body (buf ++ [80]) m.body = _
    rw [h]
    simp [List.append_assoc]

/-- Witness for C5 at a concrete count, a Bind with 65536 format codes, and a
Parse with 65536 parameter types. -/
theorem u16_count_boundary_witness :
    u16.from_usize 3 = .ok 3 ∧
    Bind.write ⟨[], [], List.replicate 65536 0, [], []⟩ []
      = .err .valueTooLarge ([] ++ [66] ++ [0, 0, 0, 0] ++ [] ++ [0] ++ [] ++ [0]) ∧
    Parse.write ⟨[], [], List.replicate 65536 0⟩ []
      = .err .valueTooLarge ([] ++ [80] ++ [0, 0, 0, 0] ++ [] ++ [0] ++ [] ++ [0]) :=
  ⟨u16_count_boundary.1 3 (by decide),
   u16_count_boundary.2.2.1 [] ⟨[], [], List.replicate 65536 0, [], []⟩ rfl rfl
     (by rw [List.length_replicate]; omega),
   u16_count_boundary.2.2.2.2.2 [] ⟨[], [], List.replicate 65536 0⟩ rfl rfl
     (by rw [List.length_replicate]; omega)⟩

/-- C8: in Bind's parameter value list, an absent (None) value is written as
the 32-bit signed value -1 — bytes 255,255,255,255 big-endian — with no
following bytes for that parameter, while a present value is written as its
narrowed 32-bit signed length followed by its bytes; concretely, a Bind with
one NULL parameter produces the byte string below. -/
theorem bind_null_param_encoding :
    (∀ (buf : Buf) (rest : List (Option Buf)),
      write_values buf (none :: rest) = write_values (buf ++ [255, 255, 255, 255]) rest) ∧
    (∀ (buf v : Buf) (rest : List (Option Buf)), v.length ≤ 2147483647 →
      write_values buf (some v :: rest)
        = write_values (buf ++ beBytes 4 v.length ++ v) rest) ∧
    Bind.write ⟨[], [], [], [none], []⟩ []
      = .ok [66, 0, 0, 0, 16, 0, 0, 0, 0, 0, 1, 255, 255, 255, 255, 0, 0] := by
  refine ⟨?_, ?_, by decide⟩
  · intro buf rest
    have h255 : i32be (-1) = [255, 255, 255, 255] := by decide
    simp only [write_values, h255]
  · intro buf v rest h
    simp only [write_values]
    rw [i32_from_usize_ok h]
    simp only [checked]
    have h32 : (2 : Nat) ^ 32 = 4294967296 := by norm_num
    rw [i32be_ofNat v.length (by omega)]

/-- Witness for C8's present-value clause at a concrete one-byte value. -/
theorem bind_null_param_encoding_witness :
    write_values [7] [some [8]] = write_values ([7] ++ beBytes 4 1 ++ [8]) [] :=
  bind_null_param_encoding.2.1 [7] [8] [] (by decide)

end Frontend
